import Mathlib

/-!
Verification of the ixdtf package (RFC 9557 Internet Extended Date/Time
Format, Go implementation, `ixdtf.go` together with `abnf/abnf.go`).

The Go code is shallowly embedded here.  Strings are modelled as `List Char`
(all inputs of interest are ASCII, so Go's byte indexing and Lean's
character lists agree).  The external collaborators from Go's standard
`time` package (`time.Parse` of the RFC 3339 portion, `time.Time.Format`,
`time.LoadLocation`) are modelled by a `TimeLib` record; theorems either
quantify over a `TimeLib` and pin the few lookups they need by hypotheses,
or use the concrete `goTimeLib` model below, which reproduces the
documented behaviour of Go's `time` package on the names and instants
appearing in the claims.

A Go `*time.Location` is modelled by `Loc` (its `String()` name and its
offset function); a Go `time.Time` by `GoTime` (an abstract instant plus
its location, so that `t.Zone()` yields `t.loc.offsetAt t.instant` and
`t.In loc` replaces the location while keeping the instant).
-/

/-- Characters of a string literal, the form the embedding works on. -/
def str (s : String) : List Char := s.data

/-- Model of Go `*time.Location`: the zone's name (`String()`) and its
offset (in seconds) as a function of the instant. -/
structure Loc where
  name : List Char
  offsetAt : Int → Int

/-- Model of Go `time.Time`: an abstract instant together with the
location the time is expressed in. -/
structure GoTime where
  instant : Int
  loc : Loc

/-- Model of Go `t.In(loc)`: same instant, new location. -/
def GoTime.In (t : GoTime) (l : Loc) : GoTime := { instant := t.instant, loc := l }

/-- Model of the external collaborators from Go's `time` package used by
the ixdtf code: RFC 3339 parsing and formatting of the non-suffix portion,
and `time.LoadLocation`. -/
structure TimeLib where
  parseRFC3339 : List Char → Option GoTime
  formatRFC3339 : GoTime → List Char
  loadLocation : List Char → Option Loc

/-- The distinct Go error values the embedded code can produce.  Each
constructor corresponds to one error object in the source. -/
inductive GoErr where
  /-- The `ErrInvalidSuffix` -/
  | invalidSuffix
  /-- The `ErrInvalidTimezone` -/
  | invalidTimezone
  /-- The `ErrInvalidExtension` -/
  | invalidExtension
  /-- The `ErrCriticalExtension` -/
  | criticalExtension
  /-- The `ErrTimezoneOffsetMismatch` -/
  | timezoneOffsetMismatch
  /-- The `abnf.ErrPrivateExtension` -/
  | privateExtension
  /-- The `abnf.ErrExperimentalExtension` -/
  | experimentalExtension
  /-- the `errors.New("invalid extension format")` allocated inside
  `Abnf.Validate` when the regular expression does not match -/
  | abnfInvalidFormat
  /-- the `errors.New("invalid timezone name syntax")` inside
  `validateTimezoneName` -/
  | tzNameSyntaxError
  /-- the error returned by `time.LoadLocation` for an unknown name -/
  | loadLocationFailed (name : List Char)
  /-- failure of `parseRFC3339Portion` (both layouts rejected) -/
  | baseTimeParse
deriving DecidableEq

/-- Model of `IXDTFExtensions`.  `tags` is the `map[string]string` as an
association list with unique keys (first binding wins, as in the code);
`critical` is the set of keys the `map[string]bool` maps to `true`. -/
structure IXDTFExtensions where
  location : Option Loc
  tags : List (List Char × List Char)
  critical : List (List Char)

/-- Lookup in the `tags` map. -/
def lookupTag : List (List Char × List Char) → List Char → Option (List Char)
  | [], _ => none
  | (k, v) :: rest, key => if k = key then some v else lookupTag rest key

/-- Model of `time.FixedZone(name, 0)` as built by `parseSuffixElement`. -/
def fixedZone (n : List Char) : Loc := { name := n, offsetAt := fun _ => 0 }

/-- Model of `time.UTC` (name `"UTC"`, offset always 0). -/
def utcLoc : Loc := { name := str "UTC", offsetAt := fun _ => 0 }

/-- The `NewIXDTFExtensions(nil)`: location defaults to `time.UTC`, maps start
empty. -/
def newExt : IXDTFExtensions := { location := some utcLoc, tags := [], critical := [] }

/-! ## Character classes of the ABNF regular expressions (`abnf/abnf.go`) -/

/-- The `[a-z]` -/
def lcAlpha (c : Char) : Bool := 'a' ≤ c && c ≤ 'z'

/-- The `[A-Z]` -/
def ucAlpha (c : Char) : Bool := 'A' ≤ c && c ≤ 'Z'

/-- The `[0-9]` -/
def digitChar (c : Char) : Bool := '0' ≤ c && c ≤ '9'

/-- The `[A-Za-z0-9]` -/
def alnum (c : Char) : Bool := lcAlpha c || ucAlpha c || digitChar c

/-- first character of a suffix key: `[a-z_]` -/
def keyInitial (c : Char) : Bool := lcAlpha c || c = '_'

/-- later characters of a suffix key: `[a-z_0-9-]` -/
def keyChar (c : Char) : Bool := lcAlpha c || digitChar c || c = '-' || c = '_'

/-- first character of a timezone-name segment: `[A-Za-z_]` -/
def tzInitial (c : Char) : Bool := lcAlpha c || ucAlpha c || c = '_'

/-- later characters of a timezone-name segment: `[A-Za-z._0-9+-]` -/
def tzChar (c : Char) : Bool :=
  lcAlpha c || ucAlpha c || digitChar c || c = '.' || c = '_' || c = '+' || c = '-'

/-- Split a character list at every occurrence of `sep`, keeping empty
pieces, mirroring how an anchored regex `x+ (sep x+)*` decomposes a
string. -/
def splitOnChar (sep : Char) : List Char → List (List Char)
  | [] => [[]]
  | c :: cs =>
    match splitOnChar sep cs with
    | p :: ps => if c = sep then [] :: p :: ps else (c :: p) :: ps
    | [] => [[]]

/-- The regex `^[a-z_][a-z_0-9-]*$` compiled into `AbnfSuffixKey`. -/
def matchSuffixKey : List Char → Bool
  | [] => false
  | c :: cs => keyInitial c && cs.all keyChar

/-- The regex `^[A-Za-z0-9]+(?:-[A-Za-z0-9]+)*$` compiled into
`AbnfSuffixValues`: every `-`-separated piece is nonempty and
alphanumeric. -/
def matchSuffixValues (l : List Char) : Bool :=
  (splitOnChar '-' l).all (fun p => !p.isEmpty && p.all alnum)

/-- One segment of the timezone-name regex: `[A-Za-z_][A-Za-z._0-9+-]*`. -/
def matchTZSegment : List Char → Bool
  | [] => false
  | c :: cs => tzInitial c && cs.all tzChar

/-- The regex `^[A-Za-z_][A-Za-z._0-9+-]*(/[A-Za-z_][A-Za-z._0-9+-]*)*$`
compiled into `AbnfTimezoneName`: `/`-separated nonempty segments. -/
def matchTZName (l : List Char) : Bool :=
  (splitOnChar '/' l).all matchTZSegment

/-- The `[+-][0-9]{2}:[0-9]{2}` core of the second `AbnfTimezone`
alternative. -/
def matchOffsetCore : List Char → Bool
  | [s, h1, h2, c, m1, m2] =>
    (s = '+' || s = '-') && digitChar h1 && digitChar h2 && c = ':' &&
      digitChar m1 && digitChar m2
  | _ => false

/-- Strip the optional `!?` of the `AbnfTimezone` alternatives. -/
def stripBang (l : List Char) : List Char :=
  match l with
  | '!' :: rest => rest
  | _ => l

/-- The regex compiled into `AbnfTimezone`:
`^\[!?<tz-name>\]$|^\[!?[+-][0-9]{2}:[0-9]{2}\]$`. -/
def matchAbnfTimezone (l : List Char) : Bool :=
  match l with
  | '[' :: rest =>
    match rest.getLast? with
    | some ']' =>
      let mid := stripBang rest.dropLast
      matchTZName mid || matchOffsetCore mid
    | _ => false
  | _ => false

/-! ## `Abnf.Validate` and the extra per-pattern checks (`abnf/abnf.go`) -/

/-- The `validateSuffixKey`: policy rejection of private (`x-`/`X-`) and
experimental (`_`) key namespaces. -/
def validateSuffixKey (key : List Char) : Except GoErr Unit :=
  match key with
  | 'x' :: '-' :: _ => .error .privateExtension
  | 'X' :: '-' :: _ => .error .privateExtension
  | '_' :: _ => .error .experimentalExtension
  | _ => .ok ()

/-- The `AbnfSuffixKey.Validate`: regex match, then `validateSuffixKey`. -/
def abnfSuffixKeyValidate (key : List Char) : Except GoErr Unit :=
  if matchSuffixKey key then validateSuffixKey key else .error .abnfInvalidFormat

/-- The `AbnfSuffixValues.Validate`: regex match only (no extra check). -/
def abnfSuffixValuesValidate (v : List Char) : Except GoErr Unit :=
  if matchSuffixValues v then .ok () else .error .abnfInvalidFormat

/-- The `AbnfTimezoneName.Validate`: regex match, then `validateTimezoneName`
(which re-checks the syntax and calls `time.LoadLocation`). -/
def abnfTimezoneNameValidate (lib : TimeLib) (s : List Char) : Except GoErr Unit :=
  if matchTZName s then
    if matchTZName s then
      match lib.loadLocation s with
      | some _ => .ok ()
      | none => .error (.loadLocationFailed s)
    else .error .tzNameSyntaxError
  else .error .abnfInvalidFormat

/-- The `AbnfTimezone.Validate`: regex match only (no extra check). -/
def abnfTimezoneValidate (s : List Char) : Except GoErr Unit :=
  if matchAbnfTimezone s then .ok () else .error .abnfInvalidFormat

/-! ## Suffix-element validation helpers (`ixdtf.go`, middle of the file) -/

/-- The `isValidTimezoneContent`: rejects empty content and content that looks
like an extension-tag prefix (`u-`, `x-`, `t-` in the first two bytes). -/
def isValidTimezoneContent (s : List Char) : Bool :=
  match s with
  | [] => false
  | a :: b :: _ =>
    if s.contains '-' then
      if b = '-' && (a = 'u' || a = 'x' || a = 't') then false else true
    else true
  | _ => true

/-- The `isValidSuffixKeyRange`: empty range is `ErrInvalidExtension`,
otherwise `AbnfSuffixKey.Validate` on the key characters. -/
def isValidSuffixKeyRange (key : List Char) : Except GoErr Unit :=
  if key.isEmpty then .error .invalidExtension else abnfSuffixKeyValidate key

/-- The `hasConsecHyphen l = true` iff some `l[i] = l[i+1] = '-'` (the single
pass of `isValidSuffixValue`). -/
def hasConsecHyphen : List Char → Bool
  | a :: b :: rest => (a = '-' && b = '-') || hasConsecHyphen (b :: rest)
  | _ => false

/-- The `isValidSuffixValue`: empty value passes(!), otherwise the
`AbnfSuffixValues` regex plus no leading/trailing and no consecutive
hyphens. -/
def isValidSuffixValue (value : List Char) : Except GoErr Unit :=
  match value with
  | [] => .ok ()
  | c :: _ =>
    match abnfSuffixValuesValidate value with
    | .error e => .error e
    | .ok _ =>
      if c = '-' || value.getLast? = some '-' then .error .invalidExtension
      else if hasConsecHyphen value then .error .invalidExtension
      else .ok ()

/-- The `isValidSuffixValueRange`: empty range is `ErrInvalidExtension`,
otherwise `isValidSuffixValue`. -/
def isValidSuffixValueRange (value : List Char) : Except GoErr Unit :=
  if value.isEmpty then .error .invalidExtension else isValidSuffixValue value

/-- The `validateCriticalExtension` (key ignored): empty value is
`ErrCriticalExtension`. -/
def validateCriticalExtension (value : List Char) : Except GoErr Unit :=
  if value.isEmpty then .error .criticalExtension else .ok ()

/-! ## Parsing (`parseSuffixElement`, `handleExtensionTag`, `parseSuffix`,
`Parse`) -/

/-- The `handleExtensionTag`: `rest` is the element content after the optional
critical marker; it is split at its first `=`; empty key or value is
`ErrInvalidExtension`; key and value are validated; on a duplicate key the
element is silently dropped (first occurrence wins), otherwise the tag is
inserted and, if marked, recorded as critical. -/
def handleExtensionTag (critical : Bool) (rest : List Char)
    (ext : IXDTFExtensions) : Except GoErr IXDTFExtensions :=
  let key := rest.takeWhile (fun c => !(c == '='))
  match rest.dropWhile (fun c => !(c == '=')) with
  | [] => .error .invalidExtension
  | _ :: value =>
    if key.isEmpty then .error .invalidExtension
    else if value.isEmpty then .error .invalidExtension
    else
      match isValidSuffixKeyRange key with
      | .error e => .error e
      | .ok _ =>
        match isValidSuffixValueRange value with
        | .error e => .error e
        | .ok _ =>
          match lookupTag ext.tags key with
          | some _ => .ok ext
          | none =>
            .ok { ext with
                  tags := ext.tags ++ [(key, value)],
                  critical := if critical then ext.critical ++ [key] else ext.critical }

/-- The body of `parseSuffixElement` after the critical marker has been
stripped: tag handling when the content contains `=`, timezone handling
otherwise.  A critical timezone is `ErrInvalidTimezone`; the timezone
content must match `AbnfTimezoneName.Validate` or, failing that, the
bracketed offset form of `AbnfTimezone`; the accepted content is stored as
`time.FixedZone(content, 0)` with no duplicate-zone check. -/
def suffixElementBody (lib : TimeLib) (critical : Bool) (rest : List Char)
    (ext : IXDTFExtensions) : Except GoErr IXDTFExtensions :=
  if rest.contains '=' then handleExtensionTag critical rest ext
  else if critical then .error .invalidTimezone
  else if rest.isEmpty then .ok ext
  else
    let accept : Except GoErr IXDTFExtensions :=
      if isValidTimezoneContent rest then
        .ok { ext with location := some (fixedZone rest) }
      else .error .invalidExtension
    match abnfTimezoneNameValidate lib rest with
    | .ok _ => accept
    | .error _ =>
      match abnfTimezoneValidate ('[' :: rest ++ [']']) with
      | .error _ => .error .invalidExtension
      | .ok _ => accept

/-- The `parseSuffixElement`: empty content and a bare `!` are
`ErrInvalidSuffix`; otherwise the optional `!` marks the element critical
and the remainder is classified by `suffixElementBody`. -/
def parseSuffixElement (lib : TimeLib) (content : List Char)
    (ext : IXDTFExtensions) : Except GoErr IXDTFExtensions :=
  match content with
  | [] => .error .invalidSuffix
  | c :: rest =>
    if c = '!' then
      if rest.isEmpty then .error .invalidSuffix
      else suffixElementBody lib true rest ext
    else suffixElementBody lib false (c :: rest) ext

/-- The scanning loop of `parseSuffix`.  `none` state: outside a bracket,
the next character must be `[` (anything else, including end inside a
bracket, is `ErrInvalidSuffix`).  `some cur` state: inside a bracket,
accumulating the element content (reversed) until the matching `]`, at
which point the content is handed to `parseSuffixElement`. -/
def suffixLoop (lib : TimeLib) : List Char → Option (List Char) →
    IXDTFExtensions → Except GoErr IXDTFExtensions
  | [], none, ext => .ok ext
  | [], some _, _ => .error .invalidSuffix
  | c :: rest, none, ext =>
    if c = '[' then suffixLoop lib rest (some []) ext
    else .error .invalidSuffix
  | c :: rest, some cur, ext =>
    if c = ']' then
      match parseSuffixElement lib cur.reverse ext with
      | .error e => .error e
      | .ok ext' => suffixLoop lib rest none ext'
    else suffixLoop lib rest (some (c :: cur)) ext

/-- The `parseSuffix`: starts from `NewIXDTFExtensions(nil)` and scans the
bracketed elements. -/
def parseSuffix (lib : TimeLib) (s : List Char) : Except GoErr IXDTFExtensions :=
  suffixLoop lib s none newExt

/-- The `strings.HasPrefix`. -/
def startsWithChars : List Char → List Char → Bool
  | [], _ => true
  | _ :: _, [] => false
  | a :: as, b :: bs => a == b && startsWithChars as bs

/-- The `TimezoneConsistencyResult`. -/
structure TZRes where
  location : Option Loc
  isConsistent : Bool
  skipped : Bool
  originalOffset : Int
  expectedOffset : Int

/-- The `checkTimezoneConsistency`: re-loads the location by name (failure is
propagated as an error in both modes), compares the timestamp's own
offset with the loaded zone's offset at that instant, skips the comparison
for `Etc/GMT`-prefixed names, and in strict mode turns a mismatch into
`ErrTimezoneOffsetMismatch`. -/
def checkTimezoneConsistency (lib : TimeLib) (t : GoTime)
    (location : Option Loc) (strict : Bool) : Except GoErr TZRes :=
  match location with
  | none =>
    .ok { location := none, isConsistent := true, skipped := false,
          originalOffset := 0, expectedOffset := 0 }
  | some l =>
    match lib.loadLocation l.name with
    | none => .error (.loadLocationFailed l.name)
    | some loc =>
      let originalOffset := t.loc.offsetAt t.instant
      let expectedOffset := loc.offsetAt t.instant
      if startsWithChars (str "Etc/GMT") loc.name then
        .ok { location := some loc, isConsistent := true, skipped := true,
              originalOffset := originalOffset, expectedOffset := expectedOffset }
      else
        let isCons : Bool := originalOffset == expectedOffset
        if strict && !isCons then .error .timezoneOffsetMismatch
        else
          .ok { location := some loc, isConsistent := isCons, skipped := false,
                originalOffset := originalOffset, expectedOffset := expectedOffset }

/-- The `Parse`: split at the first `[` (`findRFC3339End`), parse the RFC 3339
portion through the external library, parse the suffix (when present) and
run the consistency check on the resulting location, re-expressing the
timestamp in the location the check returns. -/
def Parse (lib : TimeLib) (s : List Char) (strict : Bool) :
    Except GoErr (GoTime × IXDTFExtensions) :=
  let base := s.takeWhile (fun c => !(c == '['))
  let suffix := s.dropWhile (fun c => !(c == '['))
  match lib.parseRFC3339 base with
  | none => .error .baseTimeParse
  | some t =>
    match (if suffix.isEmpty then .ok newExt else parseSuffix lib suffix) with
    | .error e => .error e
    | .ok ext =>
      match ext.location with
      | none => .ok (t, ext)
      | some l =>
        match checkTimezoneConsistency lib t (some l) strict with
        | .error e => .error e
        | .ok res =>
          match res.location with
          | some loc => .ok (t.In loc, ext)
          | none => .ok (t, ext)

/-! ## Formatting (`validateExtensions`, `appendSuffix`, `Format`) -/

/-- Go string comparison `a < b` (bytewise lexicographic). -/
def lexLt : List Char → List Char → Bool
  | [], [] => false
  | [], _ :: _ => true
  | _ :: _, [] => false
  | a :: as, b :: bs => if a < b then true else if b < a then false else lexLt as bs

/-- One step of the insertion sort in `appendSuffix`: insert `k` into an
already sorted list, after any equal keys (`keys[j] > key` shifts). -/
def insertKey (k : List Char) : List (List Char) → List (List Char)
  | [] => [k]
  | x :: xs => if lexLt k x then k :: x :: xs else x :: insertKey k xs

/-- The insertion sort in `appendSuffix` (ascending by Go `<`). -/
def sortKeys (ks : List (List Char)) : List (List Char) :=
  ks.foldl (fun acc k => insertKey k acc) []

/-- Membership in the `critical` set (`ext.Critical[key]`). -/
def critMem (critical : List (List Char)) (k : List Char) : Bool :=
  critical.contains k

/-- One formatted tag element `[<!>key=value]`. -/
def tagElement (ext : IXDTFExtensions) (k : List Char) : List Char :=
  '[' :: (if critMem ext.critical k then ['!'] else []) ++ k ++ '=' ::
    ((lookupTag ext.tags k).getD []) ++ [']']

/-- The `appendSuffix`: the location's name in brackets (when a location is
present), then the tags sorted by key. -/
def appendSuffix (ext : IXDTFExtensions) : List Char :=
  (match ext.location with
   | some l => '[' :: l.name ++ [']']
   | none => []) ++
  (sortKeys (ext.tags.map (fun p => p.1))).foldl
    (fun b k => b ++ tagElement ext k) []

/-- The tag-key loop of `validateExtensions`: every key must pass
`AbnfSuffixKey.Validate`. -/
def checkTagKeys : List (List Char × List Char) → Except GoErr Unit
  | [] => .ok ()
  | (k, _) :: rest =>
    match abnfSuffixKeyValidate k with
    | .error e => .error e
    | .ok _ => checkTagKeys rest

/-- The critical loop of `validateExtensions`: every critical key must be
present in `tags` and have a non-empty value. -/
def checkCriticalKeys (tags : List (List Char × List Char)) :
    List (List Char) → Except GoErr Unit
  | [] => .ok ()
  | k :: rest =>
    match lookupTag tags k with
    | none => .error .criticalExtension
    | some v =>
      match validateCriticalExtension v with
      | .error e => .error e
      | .ok _ => checkCriticalKeys tags rest

/-- The `validateExtensions`: the location (when present) must resolve through
`time.LoadLocation`, every tag key must pass the key grammar (tag values
are not re-validated), and the critical set is checked.  -/
def validateExtensions (lib : TimeLib) (ext : IXDTFExtensions) : Except GoErr Unit :=
  match ext.location with
  | some l =>
    match lib.loadLocation l.name with
    | none => .error .invalidTimezone
    | some _ =>
      match checkTagKeys ext.tags with
      | .error e => .error e
      | .ok _ => checkCriticalKeys ext.tags ext.critical
  | none =>
    match checkTagKeys ext.tags with
    | .error e => .error e
    | .ok _ => checkCriticalKeys ext.tags ext.critical

/-- The `Format`: validate the extensions, then the RFC 3339 portion from the
external library followed by the suffix. -/
def Format (lib : TimeLib) (t : GoTime) (ext : IXDTFExtensions) :
    Except GoErr (List Char) :=
  match validateExtensions lib ext with
  | .error e => .error e
  | .ok _ => .ok (lib.formatRFC3339 t ++ appendSuffix ext)

/-- Whether an `Except` result is an error. -/
def isError {α : Type} : Except GoErr α → Bool
  | .error _ => true
  | .ok _ => false

/-! ## A concrete model of Go's `time` package

`goTimeLib` reproduces the documented behaviour of Go's standard library
on exactly the zone names and base-timestamp strings exercised by the
claims and by the repository's own tests: `LoadLocation` succeeds on
`"UTC"`, `"GMT"`, `"Asia/Tokyo"` and `"America/New_York"` and fails on
anything else that appears here (in particular `"Foo/Bar"`, `"+09:00"`,
`"+24:00"`); a timestamp parsed from a `Z` string carries `time.UTC` and a
timestamp parsed with a `+09:00` numeric offset carries a fixed zone with
offset 32400 and empty name.  Offsets are the real ones at the instants
used (America/New_York is on daylight time, -14400, on 2025-06-01). -/

/-- The fixed `+09:00` zone Go attaches to a timestamp parsed with that
numeric offset (empty zone name). -/
def plus9Loc : Loc := { name := [], offsetAt := fun _ => 32400 }

/-- Model of `time.LoadLocation("GMT")`. -/
def gmtLoc : Loc := { name := str "GMT", offsetAt := fun _ => 0 }

/-- Model of `time.LoadLocation("Asia/Tokyo")`. -/
def tokyoLoc : Loc := { name := str "Asia/Tokyo", offsetAt := fun _ => 32400 }

/-- Model of `time.LoadLocation("America/New_York")` at the (summer 2025)
instants used in the claims: UTC-4. -/
def nyLoc : Loc := { name := str "America/New_York", offsetAt := fun _ => -14400 }

/-- The concrete external time library used by the closed theorems. -/
def goTimeLib : TimeLib :=
  { parseRFC3339 := fun s =>
      if s = str "2025-02-03T04:05:06+09:00" then some { instant := 100, loc := plus9Loc }
      else if s = str "2025-01-02T03:04:05Z" then some { instant := 200, loc := utcLoc }
      else if s = str "2025-06-01T12:00:00+09:00" then some { instant := 300, loc := plus9Loc }
      else if s = str "2025-01-02T03:04:05+09:00" then some { instant := 400, loc := plus9Loc }
      else if s = str "2006-01-02T15:04:05Z" then some { instant := 500, loc := utcLoc }
      else if s = str "2025-01-01T00:00:00Z" then some { instant := 600, loc := utcLoc }
      else none,
    formatRFC3339 := fun t =>
      if t.instant = 200 then str "2025-01-02T03:04:05Z"
      else if t.instant = 600 then str "2025-01-01T00:00:00Z"
      else [],
    loadLocation := fun n =>
      if n = str "UTC" then some utcLoc
      else if n = str "GMT" then some gmtLoc
      else if n = str "Asia/Tokyo" then some tokyoLoc
      else if n = str "America/New_York" then some nyLoc
      else none }

/-- The raw content of a tag element: optional critical marker, key,
`'='`, value. -/
def mkTag (b : Bool) (k v : List Char) : List Char :=
  (if b then ['!'] else []) ++ k ++ '=' :: v

/-- The extension set after a fresh tag insertion. -/
def insertedExt (ext : IXDTFExtensions) (b : Bool) (k v : List Char) :
    IXDTFExtensions :=
  { ext with
    tags := ext.tags ++ [(k, v)],
    critical := if b then ext.critical ++ [k] else ext.critical }

/-- The invariant: every critical key is present in the tag map. -/
def TagInv (ext : IXDTFExtensions) : Prop :=
  ∀ kk ∈ ext.critical, lookupTag ext.tags kk ≠ none

/-! ## Claims -/

/-- Claim C1 (code bug).  The claim says a suffix-free valid RFC 3339
timestamp is accepted by `Parse` in both modes.  The code instead rejects
`"2025-02-03T04:05:06+09:00"` in strict mode with
`ErrTimezoneOffsetMismatch`, because `NewIXDTFExtensions(nil)` defaults
the location to `time.UTC` and the consistency check then compares the
timestamp's `+09:00` offset against UTC.  (The repository's own e2e test
"offset time" expects this input to pass strict validation.)  Non-strict
mode does succeed, but re-expresses the timestamp in UTC. -/
theorem c1_parse_rejects_plain_offset_time_in_strict_mode :
    Parse goTimeLib (str "2025-02-03T04:05:06+09:00") true =
      .error .timezoneOffsetMismatch ∧
    Parse goTimeLib (str "2025-02-03T04:05:06+09:00") false =
      .ok ({ instant := 100, loc := utcLoc }, newExt) := by
  constructor <;> rfl

/-- Claim C2 (code bug).  The claim says strict-mode round-trip is the
identity.  `"2025-01-02T03:04:05Z"` parses in strict mode, but formatting
the result appends `[UTC]` (the defaulted `time.UTC` location is
serialized), so `Format` returns `"2025-01-02T03:04:05Z[UTC]"`, not the
input.  (The repository's e2e round-trip test "basic UTC time" expects the
formatted output to equal the input.) -/
theorem c2_roundtrip_appends_utc_suffix :
    Parse goTimeLib (str "2025-01-02T03:04:05Z") true =
      .ok ({ instant := 200, loc := utcLoc }, newExt) ∧
    Format goTimeLib { instant := 200, loc := utcLoc } newExt =
      .ok (str "2025-01-02T03:04:05Z[UTC]") ∧
    str "2025-01-02T03:04:05Z[UTC]" ≠ str "2025-01-02T03:04:05Z" := by
  refine ⟨rfl, rfl, ?_⟩
  decide

/-- Claim C3 (code bug).  On
`"2025-06-01T12:00:00+09:00[America/New_York]"` strict mode does fail with
`ErrTimezoneOffsetMismatch` and non-strict mode does succeed with the zone
name retained in the extensions, as the claim says — but the returned
timestamp is re-expressed in America/New_York (offset -14400), not kept at
the original `+09:00` (offset 32400).  (The repository's own
`TestE2E_TimeZoneInconsistency` expects the `+09:00` offset to be
preserved.) -/
theorem c3_mismatch_nonstrict_converts_instead_of_preserving_offset :
    Parse goTimeLib (str "2025-06-01T12:00:00+09:00[America/New_York]") true =
      .error .timezoneOffsetMismatch ∧
    Parse goTimeLib (str "2025-06-01T12:00:00+09:00[America/New_York]") false =
      .ok ({ instant := 300, loc := nyLoc },
           { location := some (fixedZone (str "America/New_York")),
             tags := [], critical := [] }) ∧
    nyLoc.offsetAt 300 = -14400 ∧
    ¬ nyLoc.offsetAt 300 = 32400 := by
  refine ⟨rfl, rfl, rfl, ?_⟩
  decide

/-- Claim C4 (code bug).  The claim says an unresolvable but syntactically
valid zone name is tolerated in non-strict mode (the name being retained).
The code accepts `[Foo/Bar]` at the suffix level, but `Parse` then calls
`checkTimezoneConsistency`, whose `time.LoadLocation("Foo/Bar")` failure
is propagated as an error in BOTH modes, so non-strict parsing fails too.
(The repository's e2e test "with unknown time zone tag" expects non-strict
success.) -/
theorem c4_unknown_zone_fails_even_nonstrict :
    ∀ b : Bool,
      Parse goTimeLib (str "2025-01-02T03:04:05+09:00[Foo/Bar]") b =
        .error (.loadLocationFailed (str "Foo/Bar")) := by
  intro b
  cases b <;> rfl

/-- Claim C5 (code bug).  The claim says a second zone-reference element
is an `InvalidTimeZone` error in both modes.  The middle version of
`parseSuffixElement` has no duplicate-zone check: on
`"2006-01-02T15:04:05Z[UTC][GMT]"` the second element silently replaces
the first and `Parse` succeeds in both modes with location `GMT`.  (The
repository's `coverage_test.go` "Multiple timezones" case expects an
"invalid timezone name" error for exactly this input.) -/
theorem c5_second_zone_element_silently_replaces_first :
    ∀ b : Bool,
      Parse goTimeLib (str "2006-01-02T15:04:05Z[UTC][GMT]") b =
        .ok ({ instant := 500, loc := gmtLoc },
             { location := some (fixedZone (str "GMT")),
               tags := [], critical := [] }) := by
  intro b
  cases b <;> rfl

/-- Claim C6 (code bug).  The claim says `[+09:00]` is accepted as a
fixed-offset zone reference in both modes.  The suffix layer does accept
it (first conjunct: `parseSuffix` stores `FixedZone("+09:00", 0)`), but
`Parse` then calls `checkTimezoneConsistency`, whose
`time.LoadLocation("+09:00")` fails, so the whole parse errors in BOTH
modes (second conjunct).  `[+24:00]` is likewise accepted by the suffix
layer (the regex `[0-9]{2}` does not bound the hour at 23) and also fails
only at the `LoadLocation` stage (third conjunct).  (The repository's test
"timezone numeric offset suffix" expects `[+09:00]` to parse to a fixed
`+0900` zone.) -/
theorem c6_numeric_offset_suffix_rejected_at_load_stage :
    parseSuffix goTimeLib (str "[+09:00]") =
      .ok { location := some (fixedZone (str "+09:00")), tags := [], critical := [] } ∧
    (∀ b : Bool,
      Parse goTimeLib (str "2025-01-01T00:00:00Z[+09:00]") b =
        .error (.loadLocationFailed (str "+09:00"))) ∧
    (∀ b : Bool,
      Parse goTimeLib (str "2025-01-01T00:00:00Z[+24:00]") b =
        .error (.loadLocationFailed (str "+24:00"))) := by
  refine ⟨rfl, fun b => ?_, fun b => ?_⟩ <;> cases b <;> rfl

/-! ## Lemmas about `validateExtensions` for claim C7 -/

/-- If some tag key fails `AbnfSuffixKey.Validate`, the tag-key loop
errors. -/
theorem checkTagKeys_err (tags : List (List Char × List Char))
    (h : ∃ kv, kv ∈ tags ∧ ∃ e, abnfSuffixKeyValidate kv.1 = .error e) :
    ∃ e, checkTagKeys tags = .error e := by
  induction tags with
  | nil => rcases h with ⟨kv, hmem, _⟩; cases hmem
  | cons hd tl ih =>
    rcases h with ⟨kv, hmem, e, he⟩
    rcases List.mem_cons.mp hmem with hkv | hkv
    · subst hkv
      refine ⟨?_, ?_⟩
      · exact e
      · obtain ⟨k, v⟩ := kv
        simp only [checkTagKeys]
        simp only at he
        rw [he]
    · obtain ⟨k, v⟩ := hd
      simp only [checkTagKeys]
      cases hk : abnfSuffixKeyValidate k with
      | error e' => exact ⟨e', rfl⟩
      | ok u =>
        cases u
        exact ih ⟨kv, hkv, e, he⟩

/-- If some critical key is missing from `tags` or maps to the empty
value, the critical loop errors. -/
theorem checkCriticalKeys_err (tags : List (List Char × List Char))
    (crit : List (List Char)) (k : List Char) (hmem : k ∈ crit)
    (h : lookupTag tags k = none ∨ lookupTag tags k = some []) :
    ∃ e, checkCriticalKeys tags crit = .error e := by
  induction crit with
  | nil => cases hmem
  | cons hd tl ih =>
    simp only [checkCriticalKeys]
    cases hl : lookupTag tags hd with
    | none => exact ⟨.criticalExtension, rfl⟩
    | some v =>
      cases hv : v.isEmpty with
      | true =>
        refine ⟨.criticalExtension, ?_⟩
        simp only [validateCriticalExtension, hv]
        rfl
      | false =>
        simp only [validateCriticalExtension, hv]
        rcases List.mem_cons.mp hmem with hk | hk
        · subst hk
          rcases h with h | h
          · rw [hl] at h; cases h
          · rw [hl] at h
            cases h
            simp at hv
        · exact ih hk

/-- If `validateExtensions` errors, so does `Format`. -/
theorem format_err_of_validate (lib : TimeLib) (t : GoTime)
    (ext : IXDTFExtensions) (h : ∃ e, validateExtensions lib ext = .error e) :
    ∃ e, Format lib t ext = .error e := by
  rcases h with ⟨e, he⟩
  exact ⟨e, by simp only [Format, he]⟩

/-- If some tag key is invalid or some critical key is unresolvable, then
`validateExtensions` errors. -/
theorem validateExtensions_err (lib : TimeLib) (ext : IXDTFExtensions)
    (h : (∃ kv, kv ∈ ext.tags ∧ ∃ e, abnfSuffixKeyValidate kv.1 = .error e) ∨
         (∃ k, k ∈ ext.critical ∧
           (lookupTag ext.tags k = none ∨ lookupTag ext.tags k = some []))) :
    ∃ e, validateExtensions lib ext = .error e := by
  have body : ∃ e,
      (match checkTagKeys ext.tags with
       | .error e => .error e
       | .ok _ => checkCriticalKeys ext.tags ext.critical) = (.error e : Except GoErr Unit) := by
    rcases h with h | ⟨k, hk, hlk⟩
    · rcases checkTagKeys_err ext.tags h with ⟨e, he⟩
      exact ⟨e, by rw [he]⟩
    · cases htk : checkTagKeys ext.tags with
      | error e => exact ⟨e, rfl⟩
      | ok u =>
        cases u
        rcases checkCriticalKeys_err ext.tags ext.critical k hk hlk with ⟨e, he⟩
        exact ⟨e, by rw [he]⟩
  rcases body with ⟨e, he⟩
  cases hloc : ext.location with
  | none => exact ⟨e, by simp only [validateExtensions, hloc]; exact he⟩
  | some l =>
    cases hll : lib.loadLocation l.name with
    | none => exact ⟨.invalidTimezone, by simp only [validateExtensions, hloc, hll]⟩
    | some loc => exact ⟨e, by simp only [validateExtensions, hloc, hll]; exact he⟩

/-- Claim C7, counterexample.  The value `"a--b"` fails the value grammar
(so no successful parse can produce this extension set), yet `Format`
serializes it without error: tag values are not re-validated by
`validateExtensions`. -/
theorem c7_counterexample_invalid_value_serializes :
    isValidSuffixValue (str "a--b") = .error .abnfInvalidFormat ∧
    parseSuffixElement goTimeLib (str "k=a--b") newExt = .error .abnfInvalidFormat ∧
    Format goTimeLib { instant := 600, loc := utcLoc }
        { location := none, tags := [(str "k", str "a--b")], critical := [] } =
      .ok (str "2025-01-01T00:00:00Z[k=a--b]") :=
  ⟨rfl, rfl, rfl⟩

/-- Claim C7, amended.  `Format` does refuse an extension set with an
invalid tag key, an unresolvable location, or a critical key that is
missing from `tags` or maps to the empty value — but it does not
re-validate tag values (see the counterexample), so "every Extensions
value not producible by a parse" is too strong. -/
theorem c7_format_refuses_invalid_keys_zone_critical (lib : TimeLib)
    (t : GoTime) (ext : IXDTFExtensions) :
    ((∃ kv, kv ∈ ext.tags ∧ ∃ e, abnfSuffixKeyValidate kv.1 = .error e) →
      isError (Format lib t ext) = true) ∧
    (∀ l, ext.location = some l → lib.loadLocation l.name = none →
      Format lib t ext = .error .invalidTimezone) ∧
    (∀ k, k ∈ ext.critical → lookupTag ext.tags k = none →
      isError (Format lib t ext) = true) ∧
    (∀ k, k ∈ ext.critical → lookupTag ext.tags k = some [] →
      isError (Format lib t ext) = true) := by
  refine ⟨?_, ?_, ?_, ?_⟩
  · intro h
    rcases format_err_of_validate lib t ext
      (validateExtensions_err lib ext (Or.inl h)) with ⟨e, he⟩
    rw [he]
    rfl
  · intro l hloc hll
    simp only [Format, validateExtensions, hloc, hll]
  · intro k hk hlk
    rcases format_err_of_validate lib t ext
      (validateExtensions_err lib ext (Or.inr ⟨k, hk, Or.inl hlk⟩)) with ⟨e, he⟩
    rw [he]
    rfl
  · intro k hk hlk
    rcases format_err_of_validate lib t ext
      (validateExtensions_err lib ext (Or.inr ⟨k, hk, Or.inr hlk⟩)) with ⟨e, he⟩
    rw [he]
    rfl

/-- Witness for the amended C7 theorem at concrete extension sets. -/
theorem c7_witness :
    isError (Format goTimeLib { instant := 600, loc := utcLoc }
        { location := none, tags := [(str "Bad", str "v")], critical := [] }) =
      true ∧
    Format goTimeLib { instant := 600, loc := utcLoc }
        { location := some (fixedZone (str "No/SuchZone")), tags := [], critical := [] } =
      .error .invalidTimezone ∧
    isError (Format goTimeLib { instant := 600, loc := utcLoc }
        { location := none, tags := [], critical := [str "u-ca"] }) = true ∧
    isError (Format goTimeLib { instant := 600, loc := utcLoc }
        { location := none, tags := [(str "u-ca", [])], critical := [str "u-ca"] }) =
      true := by
  refine ⟨?_, ?_, ?_, ?_⟩
  · exact (c7_format_refuses_invalid_keys_zone_critical goTimeLib _ _).1
      ⟨(str "Bad", str "v"), by simp, .abnfInvalidFormat, rfl⟩
  · exact (c7_format_refuses_invalid_keys_zone_critical goTimeLib _ _).2.1
      (fixedZone (str "No/SuchZone")) rfl rfl
  · exact (c7_format_refuses_invalid_keys_zone_critical goTimeLib _ _).2.2.1
      (str "u-ca") (by simp) rfl
  · exact (c7_format_refuses_invalid_keys_zone_critical goTimeLib _ _).2.2.2
      (str "u-ca") (by simp) rfl

/-! ## List and character-class lemmas used by the tag-level claims -/

/-- The `takeWhile` passes over a block that satisfies the predicate. -/
theorem takeWhile_append_all (p : Char → Bool) (l1 l2 : List Char)
    (h : l1.all p = true) : (l1 ++ l2).takeWhile p = l1 ++ l2.takeWhile p := by
  induction l1 with
  | nil => simp
  | cons c cs ih =>
    simp only [List.all_cons, Bool.and_eq_true] at h
    simp [List.takeWhile_cons, h.1, ih h.2]

/-- The `dropWhile` passes over a block that satisfies the predicate. -/
theorem dropWhile_append_all (p : Char → Bool) (l1 l2 : List Char)
    (h : l1.all p = true) : (l1 ++ l2).dropWhile p = l2.dropWhile p := by
  induction l1 with
  | nil => simp
  | cons c cs ih =>
    simp only [List.all_cons, Bool.and_eq_true] at h
    simp [List.dropWhile_cons, h.1, ih h.2]

/-- A list with `'='` stuck in the middle contains `'='`. -/
theorem contains_eq_mid (k v : List Char) : (k ++ '=' :: v).contains '=' = true := by
  induction k with
  | nil => simp [List.contains]
  | cons c cs ih =>
    simp only [List.cons_append, List.contains_cons]
    rw [ih]
    simp

/-- The `splitOnChar` never returns the empty list of pieces. -/
theorem splitOnChar_ne_nil (sep : Char) (l : List Char) :
    splitOnChar sep l ≠ [] := by
  cases l with
  | nil => simp [splitOnChar]
  | cons c cs =>
    simp only [splitOnChar]
    cases h : splitOnChar sep cs with
    | nil => simp
    | cons p ps =>
      by_cases hc : c = sep <;> simp [hc]

/-- Characters of a list whose `splitOnChar` pieces all satisfy `q` either
satisfy `q` or are the separator. -/
theorem splitOnChar_chars (sep : Char) (q : Char → Bool) (l : List Char)
    (h : ∀ p ∈ splitOnChar sep l, ∀ c ∈ p, q c = true) :
    ∀ c ∈ l, q c = true ∨ c = sep := by
  induction l with
  | nil => intro c hc; cases hc
  | cons a as ih =>
    cases hs : splitOnChar sep as with
    | nil => exact absurd hs (splitOnChar_ne_nil sep as)
    | cons p ps =>
      intro c hc
      by_cases ha : a = sep
      · have hsplit2 : splitOnChar sep (a :: as) = [] :: p :: ps := by
          simp only [splitOnChar, hs]
          rw [if_pos ha]
        have h' : ∀ pp ∈ splitOnChar sep as, ∀ cc ∈ pp, q cc = true := by
          intro pp hpp cc hcc
          refine h pp ?_ cc hcc
          rw [hsplit2]
          rw [hs] at hpp
          exact List.mem_cons_of_mem _ hpp
        rcases List.mem_cons.mp hc with hc | hc
        · right; exact hc ▸ ha
        · exact ih (fun pp hpp cc hcc => h' pp hpp cc hcc) c hc
      · have hsplit : splitOnChar sep (a :: as) = (a :: p) :: ps := by
          simp only [splitOnChar, hs]
          rw [if_neg ha]
        rcases List.mem_cons.mp hc with hc | hc
        · left
          exact h (a :: p) (hsplit ▸ List.mem_cons_self _ _) c (hc ▸ List.mem_cons_self _ _)
        · refine ih ?_ c hc
          intro pp hpp cc hcc
          rw [hs] at hpp
          rcases List.mem_cons.mp hpp with hpp | hpp
          · exact h (a :: p) (hsplit ▸ List.mem_cons_self _ _) cc
              (hpp ▸ List.mem_cons_of_mem _ hcc)
          · exact h pp (hsplit ▸ List.mem_cons_of_mem _ hpp) cc hcc

/-- A key character (initial or later) is never `'='`, `']'`, or `'!'`. -/
theorem keyish_char_ne (c : Char) (h : (keyInitial c || keyChar c) = true) :
    ¬ c = '=' ∧ ¬ c = ']' ∧ ¬ c = '!' := by
  refine ⟨?_, ?_, ?_⟩ <;> intro hc <;> subst hc <;> revert h <;> decide

/-- A value character (alphanumeric or hyphen) is never `']'`. -/
theorem valueish_char_ne (c : Char) (h : (alnum c || c = '-') = true) :
    ¬ c = ']' := by
  intro hc; subst hc; revert h; decide

/-- A successful `AbnfSuffixKey.Validate` implies the regex matched. -/
theorem matchSuffixKey_of_validate (k : List Char)
    (h : abnfSuffixKeyValidate k = .ok ()) : matchSuffixKey k = true := by
  by_contra hm
  simp only [Bool.not_eq_true] at hm
  simp only [abnfSuffixKeyValidate, hm, Bool.false_eq_true, if_false] at h
  cases h

/-- Every character of a regex-matching key is a key character. -/
theorem matchSuffixKey_chars (k : List Char) (h : matchSuffixKey k = true) :
    ∀ c ∈ k, (keyInitial c || keyChar c) = true := by
  cases k with
  | nil => cases h
  | cons c cs =>
    simp only [matchSuffixKey, Bool.and_eq_true] at h
    intro a ha
    rcases List.mem_cons.mp ha with ha | ha
    · subst ha; rw [h.1]; rfl
    · have := List.all_eq_true.mp h.2 a ha
      rw [this]; simp

/-- A regex-matching key is nonempty and does not start with `'!'`. -/
theorem matchSuffixKey_head (k : List Char) (h : matchSuffixKey k = true) :
    ∃ c cs, k = c :: cs ∧ ¬ c = '!' := by
  cases k with
  | nil => cases h
  | cons c cs =>
    refine ⟨c, cs, rfl, ?_⟩
    exact (keyish_char_ne c (matchSuffixKey_chars _ h c (List.mem_cons_self _ _))).2.2

/-- A successful nonempty `isValidSuffixValue` implies the regex matched. -/
theorem matchSuffixValues_of_valid (v : List Char) (hv : v ≠ [])
    (h : isValidSuffixValue v = .ok ()) : matchSuffixValues v = true := by
  cases v with
  | nil => exact absurd rfl hv
  | cons c cs =>
    by_contra hm
    simp only [Bool.not_eq_true] at hm
    simp only [isValidSuffixValue, abnfSuffixValuesValidate, hm] at h
    cases h

/-- Every character of a regex-matching value is alphanumeric or a
hyphen. -/
theorem matchSuffixValues_chars (v : List Char) (h : matchSuffixValues v = true) :
    ∀ c ∈ v, (alnum c || c = '-') = true := by
  intro c hc
  have hparts : ∀ p ∈ splitOnChar '-' v, ∀ cc ∈ p, alnum cc = true := by
    intro p hp cc hcc
    have := List.all_eq_true.mp h p hp
    simp only [Bool.and_eq_true] at this
    exact List.all_eq_true.mp this.2 cc hcc
  rcases splitOnChar_chars '-' alnum v hparts c hc with ha | ha
  · rw [ha]; rfl
  · subst ha; simp

/-- Scanning one bracketed element: as long as the element content holds
no `']'`, `suffixLoop` accumulates it and hands it to
`parseSuffixElement`. -/
theorem suffixLoop_scan (lib : TimeLib) (content : List Char) :
    ∀ (acc rest : List Char) (ext : IXDTFExtensions),
    (∀ c ∈ content, ¬ c = ']') →
    suffixLoop lib (content ++ ']' :: rest) (some acc) ext =
      (match parseSuffixElement lib (acc.reverse ++ content) ext with
       | .error e => .error e
       | .ok ext' => suffixLoop lib rest none ext') := by
  induction content with
  | nil =>
    intro acc rest ext _
    simp [suffixLoop]
  | cons c cs ih =>
    intro acc rest ext h
    have hc : ¬ c = ']' := h c (List.mem_cons_self _ _)
    simp only [List.cons_append, suffixLoop]
    rw [if_neg hc]
    simp only [List.append_eq]
    rw [ih (c :: acc) rest ext (fun a ha => h a (List.mem_cons_of_mem _ ha))]
    simp [List.reverse_cons, List.append_assoc]




/-- The `handleExtensionTag` on a content of shape `key '=' value` (key free
of `'='`, key and value nonempty) reduces to key validation, value
validation, and the first-wins insertion. -/
theorem handleExtensionTag_split (b : Bool) (k v : List Char)
    (ext : IXDTFExtensions) (hk : ∀ c ∈ k, ¬ c = '=') (hknil : k ≠ [])
    (hvnil : v ≠ []) :
    handleExtensionTag b (k ++ '=' :: v) ext =
      (match abnfSuffixKeyValidate k with
       | .error e => .error e
       | .ok _ =>
         match isValidSuffixValue v with
         | .error e => .error e
         | .ok _ =>
           match lookupTag ext.tags k with
           | some _ => .ok ext
           | none => .ok (insertedExt ext b k v) : Except GoErr IXDTFExtensions) := by
  have hall : k.all (fun c => !(c == '=')) = true := by
    refine List.all_eq_true.mpr ?_
    intro c hc
    simp [hk c hc]
  have htake : (k ++ '=' :: v).takeWhile (fun c => !(c == '=')) = k := by
    rw [takeWhile_append_all _ _ _ hall]
    simp [List.takeWhile_cons]
  have hdrop : (k ++ '=' :: v).dropWhile (fun c => !(c == '=')) = '=' :: v := by
    rw [dropWhile_append_all _ _ _ hall]
    simp [List.dropWhile_cons]
  have hkse : k.isEmpty = false := by
    cases k with
    | nil => exact absurd rfl hknil
    | cons a as => rfl
  have hvse : v.isEmpty = false := by
    cases v with
    | nil => exact absurd rfl hvnil
    | cons a as => rfl
  simp only [handleExtensionTag, htake, hdrop, hkse, hvse, Bool.false_eq_true,
    if_false, isValidSuffixKeyRange, isValidSuffixValueRange, insertedExt]

/-- The `parseSuffixElement` on a well-shaped tag element hands the content
(without the marker) to `handleExtensionTag`. -/
theorem parseSuffixElement_tag (lib : TimeLib) (b : Bool) (c : Char)
    (cs v : List Char) (ext : IXDTFExtensions) (hcne : ¬ c = '!') :
    parseSuffixElement lib (mkTag b (c :: cs) v) ext =
      handleExtensionTag b ((c :: cs) ++ '=' :: v) ext := by
  have hcont : ((c :: (cs ++ '=' :: v)).contains '=') = true :=
    contains_eq_mid (c :: cs) v
  cases b with
  | true =>
    have h1 : mkTag true (c :: cs) v = '!' :: c :: (cs ++ '=' :: v) := rfl
    rw [h1]
    simp only [parseSuffixElement, List.isEmpty_cons, Bool.false_eq_true, if_false,
      if_pos rfl, suffixElementBody, hcont, if_true, List.cons_append]
  | false =>
    have h1 : mkTag false (c :: cs) v = c :: (cs ++ '=' :: v) := rfl
    rw [h1]
    simp only [parseSuffixElement]
    rw [if_neg hcne]
    simp only [suffixElementBody, hcont, if_true, List.cons_append]

/-- Claim C8, counterexample.  An uppercase private-namespace key `X-b`
fails the lowercase-only key regex before the namespace policy runs, so
`Parse` rejects it with the generic invalid-extension-format error, not
with the private-extension error the claim requires. -/
theorem c8_counterexample_uppercase_private_key_generic_error :
    Parse goTimeLib (str "2025-01-01T00:00:00Z[X-b=v]") false =
      .error .abnfInvalidFormat ∧
    GoErr.abnfInvalidFormat ≠ GoErr.privateExtension := by
  refine ⟨rfl, ?_⟩
  decide

/-- Claim C8, amended.  For any tag element, in either mode and with or
without the critical marker: a key starting `x-` is rejected with the
private-extension error; a key starting `_` is rejected with the
experimental-extension error; a key starting `X-` fails the lowercase key
regex and is rejected with the invalid-extension-format error instead.
In all three cases the element never enters the tag map (the parse
errors). -/
theorem c8_private_experimental_key_rejection (lib : TimeLib) :
    (∀ (b : Bool) (ks v : List Char) (ext : IXDTFExtensions),
      ks.all keyChar = true → v ≠ [] →
      parseSuffixElement lib (mkTag b ('x' :: '-' :: ks) v) ext =
        .error .privateExtension) ∧
    (∀ (b : Bool) (ks v : List Char) (ext : IXDTFExtensions),
      ks.all keyChar = true → v ≠ [] →
      parseSuffixElement lib (mkTag b ('_' :: ks) v) ext =
        .error .experimentalExtension) ∧
    (∀ (b : Bool) (ks v : List Char) (ext : IXDTFExtensions),
      ks.all (fun c => !(c == '=')) = true → v ≠ [] →
      parseSuffixElement lib (mkTag b ('X' :: '-' :: ks) v) ext =
        .error .abnfInvalidFormat) := by
  refine ⟨?_, ?_, ?_⟩
  · intro b ks v ext hks hv
    have hmk : matchSuffixKey ('x' :: '-' :: ks) = true := by
      simp only [matchSuffixKey, List.all_cons, hks]
      decide
    have hk : ∀ c ∈ ('x' :: '-' :: ks), ¬ c = '=' := by
      intro a ha
      rcases List.mem_cons.mp ha with ha | ha
      · subst ha; decide
      rcases List.mem_cons.mp ha with ha | ha
      · subst ha; decide
      · have hkc : keyChar a = true := List.all_eq_true.mp hks a ha
        exact (keyish_char_ne a (by rw [hkc]; simp)).1
    rw [parseSuffixElement_tag lib b 'x' ('-' :: ks) v ext (by decide)]
    rw [handleExtensionTag_split b ('x' :: '-' :: ks) v ext hk
      (List.cons_ne_nil _ _) hv]
    have hav : abnfSuffixKeyValidate ('x' :: '-' :: ks) = .error .privateExtension := by
      simp only [abnfSuffixKeyValidate, hmk]
      rfl
    rw [hav]
  · intro b ks v ext hks hv
    have hmk : matchSuffixKey ('_' :: ks) = true := by
      simp only [matchSuffixKey, hks]
      decide
    have hk : ∀ c ∈ ('_' :: ks), ¬ c = '=' := by
      intro a ha
      rcases List.mem_cons.mp ha with ha | ha
      · subst ha; decide
      · have hkc : keyChar a = true := List.all_eq_true.mp hks a ha
        exact (keyish_char_ne a (by rw [hkc]; simp)).1
    rw [parseSuffixElement_tag lib b '_' ks v ext (by decide)]
    rw [handleExtensionTag_split b ('_' :: ks) v ext hk (List.cons_ne_nil _ _) hv]
    have hav : abnfSuffixKeyValidate ('_' :: ks) = .error .experimentalExtension := by
      simp only [abnfSuffixKeyValidate, hmk]
      rfl
    rw [hav]
  · intro b ks v ext hks hv
    have hmk : matchSuffixKey ('X' :: '-' :: ks) = false := by
      have h1 : keyInitial 'X' = false := by decide
      simp [matchSuffixKey, h1]
    have hk : ∀ c ∈ ('X' :: '-' :: ks), ¬ c = '=' := by
      intro a ha
      rcases List.mem_cons.mp ha with ha | ha
      · subst ha; decide
      rcases List.mem_cons.mp ha with ha | ha
      · subst ha; decide
      · have hkc := List.all_eq_true.mp hks a ha
        simp only [Bool.not_eq_true'] at hkc
        intro hae
        rw [hae] at hkc
        cases hkc
    rw [parseSuffixElement_tag lib b 'X' ('-' :: ks) v ext (by decide)]
    rw [handleExtensionTag_split b ('X' :: '-' :: ks) v ext hk
      (List.cons_ne_nil _ _) hv]
    have hav : abnfSuffixKeyValidate ('X' :: '-' :: ks) = .error .abnfInvalidFormat := by
      simp only [abnfSuffixKeyValidate, hmk]
      rfl
    rw [hav]

/-- Witness for the amended C8 theorem at concrete elements `!x-a=1`,
`_e=1`, `X-a=1`. -/
theorem c8_witness :
    parseSuffixElement goTimeLib (mkTag true ('x' :: '-' :: str "a") (str "1"))
      newExt = .error .privateExtension ∧
    parseSuffixElement goTimeLib (mkTag false ('_' :: str "e") (str "1"))
      newExt = .error .experimentalExtension ∧
    parseSuffixElement goTimeLib (mkTag true ('X' :: '-' :: str "a") (str "1"))
      newExt = .error .abnfInvalidFormat := by
  refine ⟨?_, ?_, ?_⟩
  · exact (c8_private_experimental_key_rejection goTimeLib).1 true (str "a")
      (str "1") newExt (by decide) (by decide)
  · exact (c8_private_experimental_key_rejection goTimeLib).2.1 false (str "e")
      (str "1") newExt (by decide) (by decide)
  · exact (c8_private_experimental_key_rejection goTimeLib).2.2 true (str "a")
      (str "1") newExt (by decide) (by decide)

/-- Opening bracket plus scan: one full element step of the suffix
loop. -/
theorem suffixLoop_open (lib : TimeLib) (content rest : List Char)
    (ext : IXDTFExtensions) (h : ∀ c ∈ content, ¬ c = ']') :
    suffixLoop lib ('[' :: (content ++ ']' :: rest)) none ext =
      (match parseSuffixElement lib content ext with
       | .error e => .error e
       | .ok ext' => suffixLoop lib rest none ext') := by
  have h0 : suffixLoop lib ('[' :: (content ++ ']' :: rest)) none ext =
      suffixLoop lib (content ++ ']' :: rest) (some []) ext := by
    simp [suffixLoop]
  rw [h0, suffixLoop_scan lib content [] rest ext h]
  simp only [List.reverse_nil, List.nil_append]

/-- Claim C9 (confirmed).  For any valid non-private key `k` and valid
values `v1`, `v2`, parsing
`"2025-01-01T00:00:00Z[" k "=" v1 "][" k "=" v2 "]"` succeeds in both
modes, the duplicate element is silently dropped, and the returned tags
map `k` to the first value `v1`. -/
theorem c9_duplicate_tag_key_first_wins (b : Bool) (k v1 v2 : List Char)
    (hkey : abnfSuffixKeyValidate k = .ok ())
    (hv1 : v1 ≠ []) (hv2 : v2 ≠ [])
    (hval1 : isValidSuffixValue v1 = .ok ())
    (hval2 : isValidSuffixValue v2 = .ok ()) :
    Parse goTimeLib
        (str "2025-01-01T00:00:00Z" ++ ('[' :: (mkTag false k v1 ++ [']']))
          ++ ('[' :: (mkTag false k v2 ++ [']']))) b =
      .ok ({ instant := 600, loc := utcLoc },
           { location := some utcLoc, tags := [(k, v1)], critical := [] }) := by
  have hmk : matchSuffixKey k = true := matchSuffixKey_of_validate k hkey
  obtain ⟨c, cs, hkeq, hcne⟩ := matchSuffixKey_head k hmk
  subst hkeq
  have hkchars := matchSuffixKey_chars (c :: cs) hmk
  have hknoeq : ∀ a ∈ (c :: cs), ¬ a = '=' := fun a ha =>
    (keyish_char_ne a (hkchars a ha)).1
  have hknorb : ∀ a ∈ (c :: cs), ¬ a = ']' := fun a ha =>
    (keyish_char_ne a (hkchars a ha)).2.1
  have hv1norb : ∀ a ∈ v1, ¬ a = ']' := fun a ha =>
    valueish_char_ne a (matchSuffixValues_chars v1 (matchSuffixValues_of_valid v1 hv1 hval1) a ha)
  have hv2norb : ∀ a ∈ v2, ¬ a = ']' := fun a ha =>
    valueish_char_ne a (matchSuffixValues_chars v2 (matchSuffixValues_of_valid v2 hv2 hval2) a ha)
  have htagrb : ∀ (v : List Char), (∀ a ∈ v, ¬ a = ']') →
      ∀ a ∈ mkTag false (c :: cs) v, ¬ a = ']' := by
    intro v hv a ha
    have hmt : mkTag false (c :: cs) v = (c :: cs) ++ '=' :: v := rfl
    rw [hmt] at ha
    rcases List.mem_append.mp ha with h | h
    · exact hknorb a h
    · rcases List.mem_cons.mp h with h | h
      · subst h; decide
      · exact hv a h
  have hsuffix :
      ('[' :: (mkTag false (c :: cs) v1 ++ [']'])) ++
        ('[' :: (mkTag false (c :: cs) v2 ++ [']'])) =
      '[' :: (mkTag false (c :: cs) v1 ++
        (']' :: ('[' :: (mkTag false (c :: cs) v2 ++ (']' :: []))))) := by
    simp [List.append_assoc]
  have hext1 : parseSuffixElement goTimeLib (mkTag false (c :: cs) v1) newExt =
      .ok (insertedExt newExt false (c :: cs) v1) := by
    rw [parseSuffixElement_tag goTimeLib false c cs v1 newExt hcne]
    rw [handleExtensionTag_split false (c :: cs) v1 newExt hknoeq
      (List.cons_ne_nil _ _) hv1]
    rw [hkey, hval1]
    rfl
  have hext2 : parseSuffixElement goTimeLib (mkTag false (c :: cs) v2)
      (insertedExt newExt false (c :: cs) v1) =
      .ok (insertedExt newExt false (c :: cs) v1) := by
    rw [parseSuffixElement_tag goTimeLib false c cs v2 _ hcne]
    rw [handleExtensionTag_split false (c :: cs) v2 _ hknoeq
      (List.cons_ne_nil _ _) hv2]
    rw [hkey, hval2]
    have hlk : lookupTag (insertedExt newExt false (c :: cs) v1).tags (c :: cs) =
        some v1 := by
      simp [insertedExt, newExt, lookupTag]
    rw [hlk]
  have hps : parseSuffix goTimeLib
      (('[' :: (mkTag false (c :: cs) v1 ++ [']'])) ++
        ('[' :: (mkTag false (c :: cs) v2 ++ [']']))) =
      .ok (insertedExt newExt false (c :: cs) v1) := by
    rw [hsuffix]
    simp only [parseSuffix]
    rw [suffixLoop_open goTimeLib (mkTag false (c :: cs) v1) _ newExt
      (htagrb v1 hv1norb)]
    rw [hext1]
    dsimp only
    rw [suffixLoop_open goTimeLib (mkTag false (c :: cs) v2) [] _
      (htagrb v2 hv2norb)]
    rw [hext2]
    rfl
  have hbase_all : (str "2025-01-01T00:00:00Z").all (fun a => !(a == '[')) = true := by
    decide
  have htake : (str "2025-01-01T00:00:00Z" ++
      ('[' :: (mkTag false (c :: cs) v1 ++ [']']))
      ++ ('[' :: (mkTag false (c :: cs) v2 ++ [']']))).takeWhile
        (fun a => !(a == '[')) = str "2025-01-01T00:00:00Z" := by
    rw [List.append_assoc]
    rw [takeWhile_append_all _ _ _ hbase_all]
    simp [List.takeWhile_cons]
  have hdrop : (str "2025-01-01T00:00:00Z" ++
      ('[' :: (mkTag false (c :: cs) v1 ++ [']']))
      ++ ('[' :: (mkTag false (c :: cs) v2 ++ [']']))).dropWhile
        (fun a => !(a == '[')) =
      ('[' :: (mkTag false (c :: cs) v1 ++ [']'])) ++
        ('[' :: (mkTag false (c :: cs) v2 ++ [']'])) := by
    rw [List.append_assoc]
    rw [dropWhile_append_all _ _ _ hbase_all]
    simp [List.dropWhile_cons]
  simp only [Parse, htake, hdrop]
  have hp : goTimeLib.parseRFC3339 (str "2025-01-01T00:00:00Z") =
      some { instant := 600, loc := utcLoc } := by rfl
  rw [hp]
  have hemp : ((('[' :: (mkTag false (c :: cs) v1 ++ [']'])) ++
      ('[' :: (mkTag false (c :: cs) v2 ++ [']']))) : List Char).isEmpty = false := rfl
  rw [hemp]
  simp only [Bool.false_eq_true, if_false]
  rw [hps]
  dsimp only
  have hcons : checkTimezoneConsistency goTimeLib { instant := 600, loc := utcLoc }
      (some utcLoc) b =
      .ok { location := some utcLoc, isConsistent := true, skipped := false,
            originalOffset := 0, expectedOffset := 0 } := by
    cases b <;> rfl
  have hloc1 : (insertedExt newExt false (c :: cs) v1).location = some utcLoc := rfl
  rw [hloc1]
  dsimp only
  rw [hcons]
  rfl

/-- Witness for C9 at the spec's own example input. -/
theorem c9_witness :
    Parse goTimeLib (str "2025-01-01T00:00:00Z[key=one][key=two]") true =
      .ok ({ instant := 600, loc := utcLoc },
           { location := some utcLoc, tags := [(str "key", str "one")],
             critical := [] }) :=
  c9_duplicate_tag_key_first_wins true (str "key") (str "one") (str "two")
    (by rfl) (by decide) (by decide) (by rfl) (by rfl)

/-! ## Invariant machinery for claim C10 -/


/-- A successful lookup survives extension of the map on the right. -/
theorem lookupTag_append_some (l1 l2 : List (List Char × List Char))
    (kk w : List Char) (h : lookupTag l1 kk = some w) :
    lookupTag (l1 ++ l2) kk = some w := by
  induction l1 with
  | nil => cases h
  | cons hd tl ih =>
    obtain ⟨a, b⟩ := hd
    simp only [lookupTag, List.cons_append] at h ⊢
    by_cases hab : a = kk
    · rw [if_pos hab] at h ⊢; exact h
    · rw [if_neg hab] at h ⊢; exact ih h

/-- The freshly appended binding is always found. -/
theorem lookupTag_append_self (l1 : List (List Char × List Char))
    (k v : List Char) : lookupTag (l1 ++ [(k, v)]) k ≠ none := by
  induction l1 with
  | nil =>
    simp [lookupTag]
  | cons hd tl ih =>
    obtain ⟨a, b⟩ := hd
    simp only [lookupTag, List.cons_append]
    by_cases hab : a = k
    · rw [if_pos hab]; simp
    · rw [if_neg hab]; exact ih

/-- Characterization of the successful results of `handleExtensionTag`:
the extension set is unchanged (duplicate key) or extended by a fresh
binding. -/
theorem handleExtensionTag_ok_cases (b : Bool) (rest : List Char)
    (ext ext' : IXDTFExtensions)
    (h : handleExtensionTag b rest ext = .ok ext') :
    ext' = ext ∨ ∃ key value, lookupTag ext.tags key = none ∧
      ext' = insertedExt ext b key value := by
  simp only [handleExtensionTag] at h
  split at h
  · cases h
  · split at h
    · cases h
    · split at h
      · cases h
      · split at h
        · cases h
        · split at h
          · cases h
          · split at h
            · cases h
              left
              rfl
            · cases h
              right
              exact ⟨_, _, by assumption, rfl⟩

/-- The `handleExtensionTag` preserves the critical-keys-in-tags invariant. -/
theorem handleExtensionTag_inv (b : Bool) (rest : List Char)
    (ext ext' : IXDTFExtensions)
    (h : handleExtensionTag b rest ext = .ok ext') (hinv : TagInv ext) :
    TagInv ext' := by
  rcases handleExtensionTag_ok_cases b rest ext ext' h with he | ⟨key, value, hnone, he⟩
  · exact he ▸ hinv
  · subst he
    intro kk hkk
    simp only [insertedExt] at hkk ⊢
    cases b with
    | false =>
      have hkk2 : kk ∈ ext.critical := by simpa using hkk
      rcases ho : lookupTag ext.tags kk with _ | w
      · exact absurd ho (hinv kk hkk2)
      · exact fun hcon => by
          rw [lookupTag_append_some ext.tags [(key, value)] kk w ho] at hcon
          cases hcon
    | true =>
      have hkk2 : kk ∈ ext.critical ++ [key] := by simpa using hkk
      rcases List.mem_append.mp hkk2 with hkk | hkk
      · rcases ho : lookupTag ext.tags kk with _ | w
        · exact absurd ho (hinv kk hkk)
        · exact fun hcon => by
            rw [lookupTag_append_some ext.tags [(key, value)] kk w ho] at hcon
            cases hcon
      · have : kk = key := by simpa using hkk
        subst this
        exact lookupTag_append_self ext.tags kk value

/-- The `suffixElementBody` on success either ran `handleExtensionTag` or left
tags and critical set untouched (timezone handling only changes the
location). -/
theorem suffixElementBody_ok_cases (lib : TimeLib) (b : Bool)
    (rest : List Char) (ext ext' : IXDTFExtensions)
    (h : suffixElementBody lib b rest ext = .ok ext') :
    (ext'.tags = ext.tags ∧ ext'.critical = ext.critical) ∨
      handleExtensionTag b rest ext = .ok ext' := by
  simp only [suffixElementBody] at h
  split at h
  · right; exact h
  · split at h
    · cases h
    · split at h
      · cases h
        left
        exact ⟨rfl, rfl⟩
      · split at h
        · split at h
          · cases h
            left
            exact ⟨rfl, rfl⟩
          · cases h
        · split at h
          · cases h
          · split at h
            · cases h
              left
              exact ⟨rfl, rfl⟩
            · cases h

/-- The `suffixElementBody` preserves the invariant. -/
theorem suffixElementBody_inv (lib : TimeLib) (b : Bool) (rest : List Char)
    (ext ext' : IXDTFExtensions)
    (h : suffixElementBody lib b rest ext = .ok ext') (hinv : TagInv ext) :
    TagInv ext' := by
  rcases suffixElementBody_ok_cases lib b rest ext ext' h with ⟨ht, hc⟩ | hh
  · intro kk hkk
    rw [hc] at hkk
    rw [ht]
    exact hinv kk hkk
  · exact handleExtensionTag_inv b rest ext ext' hh hinv

/-- The `parseSuffixElement` preserves the invariant. -/
theorem parseSuffixElement_inv (lib : TimeLib) (content : List Char)
    (ext ext' : IXDTFExtensions)
    (h : parseSuffixElement lib content ext = .ok ext') (hinv : TagInv ext) :
    TagInv ext' := by
  simp only [parseSuffixElement] at h
  split at h
  · cases h
  · split at h
    · split at h
      · cases h
      · exact suffixElementBody_inv lib true _ ext ext' h hinv
    · exact suffixElementBody_inv lib false _ ext ext' h hinv

/-- The suffix-scanning loop preserves the invariant. -/
theorem suffixLoop_inv (lib : TimeLib) :
    ∀ (s : List Char) (st : Option (List Char)) (ext ext' : IXDTFExtensions),
    suffixLoop lib s st ext = .ok ext' → TagInv ext → TagInv ext' := by
  intro s
  induction s with
  | nil =>
    intro st ext ext' h hinv
    cases st with
    | none =>
      simp only [suffixLoop] at h
      cases h
      exact hinv
    | some cur =>
      simp only [suffixLoop] at h
      cases h
  | cons c cst ih =>
    intro st ext ext' h hinv
    cases st with
    | none =>
      simp only [suffixLoop] at h
      split at h
      · exact ih _ _ _ h hinv
      · cases h
    | some cur =>
      simp only [suffixLoop] at h
      split at h
      · split at h
        · cases h
        · next ext2 he2 =>
          exact ih _ _ _ h (parseSuffixElement_inv lib cur.reverse ext ext2 he2 hinv)
      · exact ih _ _ _ h hinv

/-- Claim C10 (confirmed).  First conjunct: in any extension set produced
by `parseSuffix`, every critical key is present in the tag map.  Second
conjunct: a later duplicate of an existing key — even one carrying the
critical `!` marker — leaves the extension set entirely unchanged, so the
criticality of a key is exactly that of its first occurrence. -/
theorem c10_critical_follows_first_occurrence :
    (∀ (lib : TimeLib) (s : List Char) (ext : IXDTFExtensions),
      parseSuffix lib s = .ok ext →
      ∀ kk ∈ ext.critical, lookupTag ext.tags kk ≠ none) ∧
    (∀ (lib : TimeLib) (bm : Bool) (k v w : List Char) (ext : IXDTFExtensions),
      abnfSuffixKeyValidate k = .ok () → v ≠ [] →
      isValidSuffixValue v = .ok () → lookupTag ext.tags k = some w →
      parseSuffixElement lib (mkTag bm k v) ext = .ok ext) := by
  constructor
  · intro lib s ext h kk hkk
    have hni : TagInv newExt := by
      intro kk2 hkk2
      simp [newExt] at hkk2
    exact suffixLoop_inv lib s none newExt ext h hni kk hkk
  · intro lib bm k v w ext hkey hv hval hdup
    have hmk := matchSuffixKey_of_validate k hkey
    obtain ⟨c, cs, hkeq, hcne⟩ := matchSuffixKey_head k hmk
    subst hkeq
    rw [parseSuffixElement_tag lib bm c cs v ext hcne]
    rw [handleExtensionTag_split bm (c :: cs) v ext
      (fun a ha => (keyish_char_ne a (matchSuffixKey_chars _ hmk a ha)).1)
      (List.cons_ne_nil _ _) hv]
    rw [hkey, hval, hdup]

/-- Witness for C10: a parse-produced critical key is in the tags, and a
later critical-marked duplicate `!key=v` of an existing `key` leaves the
extension set unchanged (its criticality is not recorded). -/
theorem c10_witness :
    lookupTag
      ({ location := some utcLoc, tags := [(str "key", str "u")],
         critical := [str "key"] } : IXDTFExtensions).tags (str "key") ≠ none ∧
    parseSuffixElement goTimeLib (mkTag true (str "key") (str "v"))
      { location := some utcLoc, tags := [(str "key", str "u")], critical := [] } =
      .ok { location := some utcLoc, tags := [(str "key", str "u")],
            critical := [] } := by
  constructor
  · exact c10_critical_follows_first_occurrence.1 goTimeLib (str "[!key=u]")
      { location := some utcLoc, tags := [(str "key", str "u")],
        critical := [str "key"] } (by rfl) (str "key") (by simp)
  · exact c10_critical_follows_first_occurrence.2 goTimeLib true (str "key")
      (str "v") (str "u")
      { location := some utcLoc, tags := [(str "key", str "u")], critical := [] }
      (by rfl) (by decide) (by rfl) (by rfl)
